import Mathlib

/-!
Shallow embedding of the keyframe-extraction core of the repository
(`src/annotation_interface.py` and `src/metadata_extraction.py`).

Modelling conventions:
* Python floats are modelled by exact rationals (`ℚ`); Python `int()`
  truncation toward zero is `truncQ`, float `//` is `pyFloorDiv`, float `%`
  is `pymod` (sign of the divisor, as in Python).
* Python strings are modelled by `String` / `List Char`; `str.split(sep)`
  for a one-character separator is `splitCh`, `int(str)` is `pythonInt`
  (surrounding whitespace stripped, optional sign, decimal digits; the
  rarely-used underscore digit separators of Python 3.6+ are not modelled).
* Dictionary fields that the code reads with `.get(key)` are `Option`-valued;
  `.get(key, default)` is `Option.getD`.
* External collaborators (cv2 capture handles, the filesystem) are abstracted
  into a `VideoCapture` record carrying exactly what the code reads from
  them: `isOpened`, `fps`, and per-frame-number decode success.
-/

namespace OscarReady

/-- Truncation toward zero of a rational, Python's `int(float)`. -/
def truncQ (q : ℚ) : ℤ := if 0 ≤ q then ⌊q⌋ else -⌊-q⌋

/-- Python float floor-division `a // b`. -/
def pyFloorDiv (a b : ℚ) : ℚ := (⌊a / b⌋ : ℤ)

/-- Python float modulo `a % b` (result has the sign of the divisor). -/
def pymod (a b : ℚ) : ℚ := a - b * (⌊a / b⌋ : ℤ)

/-- Python `str.split(sep)` for a single-character separator, on char lists:
`splitCh ':' "a:b" = ["a","b"]`, `splitCh ':' "" = [""]`. -/
def splitCh (sep : Char) : List Char → List (List Char)
  | [] => [[]]
  | c :: cs =>
    match splitCh sep cs with
    | [] => [[]]
    | p :: ps => if c = sep then [] :: p :: ps else (c :: p) :: ps

/-- Strip leading and trailing whitespace, Python `str.strip()` as performed
implicitly by `int(str)`. -/
def pyStrip (l : List Char) : List Char :=
  ((l.dropWhile Char.isWhitespace).reverse.dropWhile Char.isWhitespace).reverse

/-- Decimal value of a digit-character list; `none` if empty or any
non-digit character appears. -/
def decNat (l : List Char) : Option ℕ :=
  match l with
  | [] => none
  | cs =>
    if cs.all Char.isDigit then
      some (cs.foldl (fun a c => 10 * a + (c.toNat - 48)) 0)
    else none

/-- The numeric value computed by `decNat`'s fold (the decimal value of a
digit string, ignoring non-digits). -/
def decVal (l : List Char) : ℕ :=
  l.foldl (fun a c => 10 * a + (c.toNat - 48)) 0

/-- Python `int(str)`: strip whitespace, optional sign, decimal digits;
`none` models a raised `ValueError`. -/
def pythonInt (l : List Char) : Option ℤ :=
  match pyStrip l with
  | [] => none
  | c :: cs =>
    if c = '-' then (decNat cs).map (fun n => -(n : ℤ))
    else if c = '+' then (decNat cs).map (fun n => (n : ℤ))
    else (decNat (c :: cs)).map (fun n => (n : ℤ))

/-- The structured part of `parse_time` (annotation_interface.py lines 10-17):
split on `:` into exactly three parts, split the last on `.` into exactly
two, convert all four parts with `int()`.  `none` models any exception
caught by the bare `except`. -/
def parseFields? (l : List Char) : Option (ℤ × ℤ × ℤ × ℤ) :=
  match splitCh ':' l with
  | [h, m, s0] =>
    match splitCh '.' s0 with
    | [s1, ms] =>
      match pythonInt h, pythonInt m, pythonInt s1, pythonInt ms with
      | some hv, some mv, some sv, some msv => some (hv, mv, sv, msv)
      | _, _, _, _ => none
    | _ => none
  | _ => none

/-- `int(h) * 3600 + int(m) * 60 + int(s) + int(ms) / 1000`. -/
def secondsOfFields (f : ℤ × ℤ × ℤ × ℤ) : ℚ :=
  ((f.1 * 3600 + f.2.1 * 60 + f.2.2.1 : ℤ) : ℚ) + (f.2.2.2 : ℚ) / 1000

/-- `parse_time` (annotation_interface.py lines 10-17): parse
`'HH:MM:SS.mmm'` to seconds, returning `0` on any malformed input. -/
def parse_time (t : String) : ℚ :=
  ((parseFields? t.data).map secondsOfFields).getD 0

/-- `parse_time` applied to the result of `dict.get(key)`, which is `None`
when the key is missing; `None.split` raises, so the result is `0`. -/
def parse_time_any (t : Option String) : ℚ :=
  match t with
  | none => 0
  | some s => parse_time s

/-! ## The insights document data model

Mirrors the dictionary shapes read by `extract_keyframes`
(annotation_interface.py lines 63-166).  Time fields are `Option String`
because the code reads them with `.get` (possibly absent); confidences and
tag lists are total with the defaults the code supplies. -/

/-- A label appearance: `{"startTime": ..., "endTime": ..., "confidence": ...}`. -/
structure Appearance where
  startTime : Option String
  endTime : Option String
  confidence : ℚ
  deriving DecidableEq

/-- A label entity: `{"name": ..., "appearances": [...]}`. -/
structure Label where
  name : String
  appearances : List Appearance
  deriving DecidableEq

/-- A face/OCR instance: `{"start": ..., "end": ..., "confidence": ...}`. -/
structure Instance where
  start : Option String
  end_ : Option String
  confidence : ℚ
  deriving DecidableEq

/-- A face entity: `{"name": ..., "instances": [...]}`. -/
structure Face where
  name : String
  instances : List Instance
  deriving DecidableEq

/-- An OCR entity: `{"text": ..., "confidence": ..., "instances": [...]}`.
Note the entity itself carries a `confidence` field, distinct from the
per-instance confidences. -/
structure Ocr where
  text : String
  confidence : ℚ
  instances : List Instance
  deriving DecidableEq

/-- A shot: `{"start": ..., "end": ..., "tags": [...]}`. -/
structure Shot where
  start : Option String
  end_ : Option String
  tags : List String
  deriving DecidableEq

/-- A transcript instance: `{"adjustedStart": ..., "adjustedEnd": ...}`. -/
structure TranscriptInstance where
  adjustedStart : Option String
  adjustedEnd : Option String
  deriving DecidableEq

/-- A transcript segment: `{"instances": [...]}`. -/
structure TranscriptSegment where
  instances : List TranscriptInstance
  deriving DecidableEq

/-- The `videos[0].insights` categories that `extract_keyframes` reads. -/
structure Insights where
  labels : List Label
  faces : List Face
  ocr : List Ocr
  shots : List Shot
  transcript : List TranscriptSegment
  deriving DecidableEq

/-! ## Timestamp collection (annotation_interface.py lines 63-84) -/

/-- The boundary timestamps added to the `timestamps` set, in iteration
order: label appearance `startTime`/`endTime`, transcript instance
`adjustedStart`/`adjustedEnd`, shot `start`/`end`. -/
def boundaryTimestamps (ins : Insights) : List ℚ :=
  (ins.labels.flatMap fun label =>
    label.appearances.flatMap fun inst =>
      [parse_time_any inst.startTime, parse_time_any inst.endTime]) ++
  (ins.transcript.flatMap fun segment =>
    segment.instances.flatMap fun inst =>
      [parse_time_any inst.adjustedStart, parse_time_any inst.adjustedEnd]) ++
  (ins.shots.flatMap fun shot =>
    [parse_time_any shot.start, parse_time_any shot.end_])

/-- `timestamps = sorted(list(set(...)))`: deduplicate (Python `set`) and
sort ascending (Python `sorted`). -/
def collectTimestamps (ins : Insights) : List ℚ :=
  ((boundaryTimestamps ins).dedup).insertionSort (· ≤ ·)

/-! ## Per-category correlation (annotation_interface.py lines 127-161) -/

/-- A correlated label record `{"name": ..., "confidence": ...}`. -/
structure LabelRec where
  name : String
  confidence : ℚ
  deriving DecidableEq

/-- A correlated face record `{"name": ..., "confidence": ...}`. -/
structure FaceRec where
  name : String
  confidence : ℚ
  deriving DecidableEq

/-- A correlated OCR record `{"text": ..., "confidence": ...}`. -/
structure OcrRec where
  text : String
  confidence : ℚ
  deriving DecidableEq

/-- Labels active at `timestamp`: for each label, for each appearance, keep
it when `parse_time(startTime or "0:00:00") <= timestamp <= parse_time(endTime or "0:00:00")`. -/
def labelsAt (ins : Insights) (timestamp : ℚ) : List LabelRec :=
  ins.labels.flatMap fun label =>
    (label.appearances.filter fun inst =>
      parse_time (inst.startTime.getD "0:00:00") ≤ timestamp ∧
      parse_time (inst.endTime.getD "0:00:00") ≥ timestamp).map fun inst =>
        ⟨label.name, inst.confidence⟩

/-- Faces visible at `timestamp` (instance `start`/`end` fields). -/
def facesAt (ins : Insights) (timestamp : ℚ) : List FaceRec :=
  ins.faces.flatMap fun face =>
    (face.instances.filter fun inst =>
      parse_time (inst.start.getD "0:00:00") ≤ timestamp ∧
      parse_time (inst.end_.getD "0:00:00") ≥ timestamp).map fun inst =>
        ⟨face.name, inst.confidence⟩

/-- OCR text visible at `timestamp`.  The code pairs the entity's `text`
with the entity's own `confidence` field (`ocr.get("confidence", 0)`), not
the active instance's confidence. -/
def ocrTextAt (ins : Insights) (timestamp : ℚ) : List OcrRec :=
  ins.ocr.flatMap fun ocr =>
    (ocr.instances.filter fun inst =>
      parse_time (inst.start.getD "0:00:00") ≤ timestamp ∧
      parse_time (inst.end_.getD "0:00:00") ≥ timestamp).map fun _ =>
        ⟨ocr.text, ocr.confidence⟩

/-- Shot tags at `timestamp`: `extend` the tag list of every shot whose
interval contains the timestamp. -/
def shotTagsAt (ins : Insights) (timestamp : ℚ) : List String :=
  ins.shots.flatMap fun shot =>
    if parse_time (shot.start.getD "0:00:00") ≤ timestamp ∧
       parse_time (shot.end_.getD "0:00:00") ≥ timestamp then shot.tags else []

/-! ## Timestamp formatting (annotation_interface.py lines 108-113) -/

/-- Decimal digit characters of `n`, most significant first. -/
def natDigits (n : ℕ) : List Char :=
  if h : n < 10 then [Char.ofNat (48 + n)]
  else natDigits (n / 10) ++ [Char.ofNat (48 + n % 10)]
  decreasing_by exact Nat.div_lt_self (by omega) (by omega)

/-- Python `f"{n:0wd}"`: decimal form of `n`, left-padded with zeros to
width `w` (sign first for negative values). -/
def padInt (w : ℕ) (n : ℤ) : List Char :=
  if n < 0 then '-' :: (List.replicate (w - 1 - (natDigits (-n).toNat).length) '0'
    ++ natDigits (-n).toNat)
  else List.replicate (w - (natDigits n.toNat).length) '0' ++ natDigits n.toNat

/-- The inline time-string formatting of the builder:
`hours = int(t // 3600)`, `minutes = int((t % 3600) // 60)`,
`seconds = int(t % 60)`, `milliseconds = int((t * 1000) % 1000)`,
rendered as `f"{hours:02d}:{minutes:02d}:{seconds:02d}.{milliseconds:03d}"`. -/
def formatTimestamp (timestamp : ℚ) : String :=
  let hours := truncQ (pyFloorDiv timestamp 3600)
  let minutes := truncQ (pyFloorDiv (pymod timestamp 3600) 60)
  let seconds := truncQ (pymod timestamp 60)
  let milliseconds := truncQ (pymod (timestamp * 1000) 1000)
  ⟨padInt 2 hours ++ ':' :: padInt 2 minutes ++ ':' :: padInt 2 seconds ++
    '.' :: padInt 3 milliseconds⟩

/-! ## The insight-driven keyframe builder (annotation_interface.py lines 86-166)

The cv2 capture handle is abstracted into the exact observations the code
makes of it: `isOpened` (line 88), `fps` (line 91, `CAP_PROP_FPS`), and
whether `cap.read()` after seeking to a given frame number returns a frame
(lines 100-101).  The filesystem side (resolving the raw video, writing
thumbnails) does not influence the returned records beyond the thumbnail
path string, which we keep as the per-index file name. -/

/-- The observations `extract_keyframes` makes of a cv2 `VideoCapture`. -/
structure VideoCapture where
  isOpened : Bool
  fps : ℚ
  readOk : ℤ → Bool

/-- One element of the returned `formatted_keyframes` list. -/
structure KeyframeData where
  frame_index : ℕ
  keyframe_path : String
  start_time : String
  end_time : String
  shot_tags : List String
  labels : List LabelRec
  faces : List FaceRec
  ocr_text : List OcrRec
  deriving DecidableEq

/-- The keyframe record built for position `i` (in the sorted timestamp
list) at time `timestamp`. -/
def mkKeyframeData (ins : Insights) (i : ℕ) (timestamp : ℚ) : KeyframeData :=
  { frame_index := i
    keyframe_path := "frame_" ++ toString i ++ ".jpg"
    start_time := formatTimestamp timestamp
    end_time := formatTimestamp timestamp
    shot_tags := shotTagsAt ins timestamp
    labels := labelsAt ins timestamp
    faces := facesAt ins timestamp
    ocr_text := ocrTextAt ins timestamp }

/-- `extract_keyframes(metadata)` (annotation_interface.py lines 31-166),
from the point where the capture is opened: raise `ValueError` if the
capture is not opened; otherwise, for each `(frame_index, timestamp)` in
`enumerate(timestamps)`, seek to `int(timestamp * fps)` and, when a frame
comes back, append the keyframe record. -/
def extract_keyframes (cap : VideoCapture) (ins : Insights) :
    Except String (List KeyframeData) :=
  if cap.isOpened then
    Except.ok ((collectTimestamps ins).enum.filterMap fun p =>
      if cap.readOk (truncQ (p.2 * cap.fps)) then
        some (mkKeyframeData ins p.1 p.2)
      else none)
  else Except.error "Could not open video file"

/-! ## Scene-change detection (metadata_extraction.py lines 13-67)

Frames are modelled by their single-channel (grayscale) pixel lists, the
result of the `cv2.cvtColor(..., COLOR_BGR2GRAY)` conversion the code
applies to every decoded frame. -/

/-- A grayscale frame: the flattened pixel intensities. -/
abbrev GrayFrame : Type := List ℕ

/-- `np.mean(cv2.absdiff(gray, prev))`: mean absolute per-pixel
difference of two equally-shaped frames. -/
def diffMean (a b : GrayFrame) : ℚ :=
  ((List.zipWith (fun (x y : ℕ) => ((x : ℤ) - (y : ℤ)).natAbs) a b).sum : ℚ) /
    ((List.zipWith (fun (x y : ℕ) => ((x : ℤ) - (y : ℤ)).natAbs) a b).length : ℚ)

/-- One emitted scene-change keyframe. -/
structure CvKeyframe where
  frame_index : ℕ
  keyframe_path : String
  diff_mean : ℚ
  deriving DecidableEq

/-- The record appended for frame `idx` with score `d`. -/
def mkCvKeyframe (idx : ℕ) (d : ℚ) : CvKeyframe :=
  ⟨idx, "data/processed/keyframe_" ++ toString idx ++ ".jpg", d⟩

/-- The `while True` loop of `extract_keyframes(video_path, threshold)`:
`prev` is `prev_frame`, `idx` is `frame_idx`; each frame is diffed against
the previous one (when it exists) and emitted when the mean difference
strictly exceeds the threshold; `prev_frame` is replaced unconditionally. -/
def sceneLoop (threshold : ℚ) : Option GrayFrame → ℕ → List GrayFrame →
    List CvKeyframe
  | _, _, [] => []
  | prev, idx, gray :: rest =>
    (match prev with
      | none => []
      | some p =>
        if diffMean gray p > threshold then [mkCvKeyframe idx (diffMean gray p)]
        else []) ++ sceneLoop threshold (some gray) (idx + 1) rest

/-- `extract_keyframes` of metadata_extraction.py: scan the decoded frame
sequence with `prev_frame = None`, `frame_idx = 0`. -/
def extract_keyframes_cv (frames : List GrayFrame) (threshold : ℚ := 40) :
    List CvKeyframe :=
  sceneLoop threshold none 0 frames

/-! ## Concrete documents and captures used by the testable properties -/

/-- A document whose only annotation is a label active on `[1.0, 3.0]`. -/
def boundaryDoc : Insights :=
  { labels := [⟨"cat", [⟨some "0:00:01.000", some "0:00:03.000", 1/2⟩]⟩]
    faces := [], ocr := [], shots := [], transcript := [] }

/-- A document with two shots `[0,2]` and `[2,5]` (duplicate boundary `2`). -/
def twoShotsDoc : Insights :=
  { labels := [], faces := [], ocr := []
    shots := [⟨some "0:00:00.000", some "0:00:02.000", []⟩,
              ⟨some "0:00:02.000", some "0:00:05.000", []⟩]
    transcript := [] }

/-- A document with one OCR entity whose entity-level confidence (`9/10`)
differs from the confidence of its single instance (`1/2`). -/
def ocrDoc : Insights :=
  { labels := [], faces := []
    ocr := [⟨"SALE", 9/10, [⟨some "0:00:00.000", some "0:00:02.000", 1/2⟩]⟩]
    shots := [], transcript := [] }

/-- An opened capture reporting `fps = 0` whose reads always succeed. -/
def zeroFpsCap : VideoCapture := ⟨true, 0, fun _ => true⟩

/-- An opened capture (fps 1) that fails to decode frame number 2 only. -/
def gapCap : VideoCapture := ⟨true, 1, fun n => n ≠ 2⟩

/-! ## Helper lemmas -/

theorem parse_time_of_fields {s : String} {f : ℤ × ℤ × ℤ × ℤ}
    (h : parseFields? s.data = some f) : parse_time s = secondsOfFields f := by
  simp [parse_time, h]

theorem parse_time_of_none {s : String} (h : parseFields? s.data = none) :
    parse_time s = 0 := by
  simp [parse_time, h]

theorem parse_hms00 : parse_time "0:00:00.000" = 0 := by
  rw [parse_time_of_fields (f := (0, 0, 0, 0)) (by decide)]
  norm_num [secondsOfFields]

theorem parse_hms01 : parse_time "0:00:01.000" = 1 := by
  rw [parse_time_of_fields (f := (0, 0, 1, 0)) (by decide)]
  norm_num [secondsOfFields]

theorem parse_hms02 : parse_time "0:00:02.000" = 2 := by
  rw [parse_time_of_fields (f := (0, 0, 2, 0)) (by decide)]
  norm_num [secondsOfFields]

theorem parse_hms03 : parse_time "0:00:03.000" = 3 := by
  rw [parse_time_of_fields (f := (0, 0, 3, 0)) (by decide)]
  norm_num [secondsOfFields]

theorem parse_hms05 : parse_time "0:00:05.000" = 5 := by
  rw [parse_time_of_fields (f := (0, 0, 5, 0)) (by decide)]
  norm_num [secondsOfFields]

theorem parse_default_zero : parse_time "0:00:00" = 0 := by decide

theorem collect_twoShots : collectTimestamps twoShotsDoc = [0, 2, 5] := by
  have h : boundaryTimestamps twoShotsDoc = [0, 2, 2, 5] := by
    simp [boundaryTimestamps, twoShotsDoc, parse_time_any, parse_hms00,
      parse_hms02, parse_hms05]
  rw [collectTimestamps, h]
  decide

/-! ## Claims -/

/-- C1: for every timestamp `t` and every appearance interval of any
category (labels, faces, ocr, shots), the correlator classifies the
interval as active at `t` iff `start <= t <= end` (closed on both ends);
for the document with a label active on `[1.0, 3.0]`, querying exactly
`t = 1.0` and `t = 3.0` both include that label. -/
theorem claim_C1 :
    (∀ (ins : Insights) (t : ℚ) (r : LabelRec),
      r ∈ labelsAt ins t ↔
        ∃ label ∈ ins.labels, ∃ inst ∈ label.appearances,
          (parse_time (inst.startTime.getD "0:00:00") ≤ t ∧
            t ≤ parse_time (inst.endTime.getD "0:00:00")) ∧
          r = ⟨label.name, inst.confidence⟩) ∧
    (∀ (ins : Insights) (t : ℚ) (r : FaceRec),
      r ∈ facesAt ins t ↔
        ∃ face ∈ ins.faces, ∃ inst ∈ face.instances,
          (parse_time (inst.start.getD "0:00:00") ≤ t ∧
            t ≤ parse_time (inst.end_.getD "0:00:00")) ∧
          r = ⟨face.name, inst.confidence⟩) ∧
    (∀ (ins : Insights) (t : ℚ) (r : OcrRec),
      r ∈ ocrTextAt ins t ↔
        ∃ ocr ∈ ins.ocr,
          (∃ inst ∈ ocr.instances,
            parse_time (inst.start.getD "0:00:00") ≤ t ∧
              t ≤ parse_time (inst.end_.getD "0:00:00")) ∧
          r = ⟨ocr.text, ocr.confidence⟩) ∧
    (∀ (ins : Insights) (t : ℚ) (tag : String),
      tag ∈ shotTagsAt ins t ↔
        ∃ shot ∈ ins.shots,
          (parse_time (shot.start.getD "0:00:00") ≤ t ∧
            t ≤ parse_time (shot.end_.getD "0:00:00")) ∧
          tag ∈ shot.tags) ∧
    ((⟨"cat", 1/2⟩ : LabelRec) ∈ labelsAt boundaryDoc 1 ∧
      (⟨"cat", 1/2⟩ : LabelRec) ∈ labelsAt boundaryDoc 3) := by
  refine ⟨?_, ?_, ?_, ?_, ?_, ?_⟩
  · intro ins t r
    simp only [labelsAt, List.mem_flatMap, List.mem_map, List.mem_filter,
      decide_eq_true_eq, ge_iff_le]
    tauto
  · intro ins t r
    simp only [facesAt, List.mem_flatMap, List.mem_map, List.mem_filter,
      decide_eq_true_eq, ge_iff_le]
    tauto
  · intro ins t r
    simp only [ocrTextAt, List.mem_flatMap, List.mem_map, List.mem_filter,
      decide_eq_true_eq, ge_iff_le]
    constructor
    · rintro ⟨ocr, hocr, inst, ⟨hinst, hs, he⟩, rfl⟩
      exact ⟨ocr, hocr, ⟨inst, hinst, hs, he⟩, rfl⟩
    · rintro ⟨ocr, hocr, ⟨inst, hinst, hs, he⟩, rfl⟩
      exact ⟨ocr, hocr, inst, ⟨hinst, hs, he⟩, rfl⟩
  · intro ins t tag
    simp only [shotTagsAt, List.mem_flatMap]
    constructor
    · rintro ⟨shot, hshot, htag⟩
      by_cases h : parse_time (shot.start.getD "0:00:00") ≤ t ∧
          parse_time (shot.end_.getD "0:00:00") ≥ t
      · exact ⟨shot, hshot, ⟨h.1, h.2⟩, by simpa [if_pos h] using htag⟩
      · simp [if_neg h] at htag
    · rintro ⟨shot, hshot, ⟨hs, he⟩, htag⟩
      exact ⟨shot, hshot, by simp [if_pos (And.intro hs he)]; exact htag⟩
  · simp [labelsAt, boundaryDoc, parse_hms01, parse_hms03]
  · simp [labelsAt, boundaryDoc, parse_hms01, parse_hms03]

/-- C3: the collected timestamp sequence is sorted ascending and
duplicate-free, and contains exactly the parsed boundaries of label
appearances (startTime/endTime), transcript instances
(adjustedStart/adjustedEnd) and shots (start/end); two shots `[0,2]` and
`[2,5]` yield `[0,2,5]` with `2` appearing once. -/
theorem claim_C3 :
    (∀ ins : Insights, (collectTimestamps ins).Sorted (· < ·)) ∧
    (∀ (ins : Insights) (x : ℚ), x ∈ collectTimestamps ins ↔
      (∃ label ∈ ins.labels, ∃ inst ∈ label.appearances,
        x = parse_time_any inst.startTime ∨ x = parse_time_any inst.endTime) ∨
      (∃ seg ∈ ins.transcript, ∃ inst ∈ seg.instances,
        x = parse_time_any inst.adjustedStart ∨
          x = parse_time_any inst.adjustedEnd) ∨
      (∃ shot ∈ ins.shots,
        x = parse_time_any shot.start ∨ x = parse_time_any shot.end_)) ∧
    collectTimestamps twoShotsDoc = [0, 2, 5] := by
  refine ⟨?_, ?_, ?_⟩
  · intro ins
    have hsorted : List.Sorted (· ≤ ·) (collectTimestamps ins) :=
      List.sorted_insertionSort _ _
    have hperm : List.Perm (collectTimestamps ins) (boundaryTimestamps ins).dedup :=
      List.perm_insertionSort _ _
    exact hsorted.lt_of_le (hperm.nodup_iff.mpr (boundaryTimestamps ins).nodup_dedup)
  · intro ins x
    have hperm : List.Perm (collectTimestamps ins) (boundaryTimestamps ins).dedup :=
      List.perm_insertionSort _ _
    rw [hperm.mem_iff, List.mem_dedup]
    simp only [boundaryTimestamps, List.mem_append, List.mem_flatMap,
      List.mem_cons, List.mem_singleton, List.not_mem_nil, or_false]
    rw [or_assoc]
  · exact collect_twoShots

/-- C4 (counterexample): on a document whose single OCR entity has
entity-level confidence `9/10` and a single active instance of confidence
`1/2`, the correlator returns the entity-level confidence `9/10`, not the
active instance's `1/2` — refuting the claim that the confidence attached
to an active OCR entry is a field of the active interval. -/
theorem claim_C4_counterexample :
    ocrDoc.ocr =
      [⟨"SALE", 9/10, [⟨some "0:00:00.000", some "0:00:02.000", 1/2⟩]⟩] ∧
    ocrTextAt ocrDoc 1 = [⟨"SALE", 9/10⟩] ∧ (9/10 : ℚ) ≠ 1/2 := by
  refine ⟨rfl, ?_, by norm_num⟩
  simp [ocrTextAt, ocrDoc, parse_hms00, parse_hms02]

/-- C4 (amended): for every category and timestamp, each entity is
returned once per active interval (the output length is the total count of
active intervals); labels and faces carry the active instance's
confidence, while an OCR record carries the enclosing entity's text and
entity-level confidence. -/
theorem claim_C4 :
    ∀ (ins : Insights) (t : ℚ),
      ((labelsAt ins t).length =
        (ins.labels.map fun label =>
          (label.appearances.filter fun inst =>
            parse_time (inst.startTime.getD "0:00:00") ≤ t ∧
            parse_time (inst.endTime.getD "0:00:00") ≥ t).length).sum ∧
       (facesAt ins t).length =
        (ins.faces.map fun face =>
          (face.instances.filter fun inst =>
            parse_time (inst.start.getD "0:00:00") ≤ t ∧
            parse_time (inst.end_.getD "0:00:00") ≥ t).length).sum ∧
       (ocrTextAt ins t).length =
        (ins.ocr.map fun ocr =>
          (ocr.instances.filter fun inst =>
            parse_time (inst.start.getD "0:00:00") ≤ t ∧
            parse_time (inst.end_.getD "0:00:00") ≥ t).length).sum) ∧
      (∀ r : LabelRec, r ∈ labelsAt ins t ↔
        ∃ label ∈ ins.labels, ∃ inst ∈ label.appearances,
          (parse_time (inst.startTime.getD "0:00:00") ≤ t ∧
            parse_time (inst.endTime.getD "0:00:00") ≥ t) ∧
          r = ⟨label.name, inst.confidence⟩) ∧
      (∀ r : FaceRec, r ∈ facesAt ins t ↔
        ∃ face ∈ ins.faces, ∃ inst ∈ face.instances,
          (parse_time (inst.start.getD "0:00:00") ≤ t ∧
            parse_time (inst.end_.getD "0:00:00") ≥ t) ∧
          r = ⟨face.name, inst.confidence⟩) ∧
      (∀ r : OcrRec, r ∈ ocrTextAt ins t ↔
        ∃ ocr ∈ ins.ocr,
          r = ⟨ocr.text, ocr.confidence⟩ ∧
          ∃ inst ∈ ocr.instances,
            parse_time (inst.start.getD "0:00:00") ≤ t ∧
            parse_time (inst.end_.getD "0:00:00") ≥ t) := by
  intro ins t
  refine ⟨⟨?_, ?_, ?_⟩, ?_, ?_, ?_⟩
  · simp [labelsAt, Function.comp_def]
  · simp [facesAt, Function.comp_def]
  · simp [ocrTextAt, Function.comp_def]
  · intro r
    simp only [labelsAt, List.mem_flatMap, List.mem_map, List.mem_filter,
      decide_eq_true_eq]
    tauto
  · intro r
    simp only [facesAt, List.mem_flatMap, List.mem_map, List.mem_filter,
      decide_eq_true_eq]
    tauto
  · intro r
    simp only [ocrTextAt, List.mem_flatMap, List.mem_map, List.mem_filter,
      decide_eq_true_eq]
    constructor
    · rintro ⟨ocr, hocr, inst, ⟨hinst, hcond⟩, rfl⟩
      exact ⟨ocr, hocr, rfl, inst, hinst, hcond⟩
    · rintro ⟨ocr, hocr, rfl, inst, hinst, hcond⟩
      exact ⟨ocr, hocr, inst, ⟨hinst, hcond⟩, rfl⟩

/-- C5 (counterexample): an opened capture reporting `fps = 0` is not
rejected: the builder proceeds and returns keyframes (sampling frame
number `int(t * 0) = 0` for every timestamp) instead of aborting with the
fatal source error. -/
theorem claim_C5_counterexample :
    zeroFpsCap.fps ≤ 0 ∧
    extract_keyframes zeroFpsCap twoShotsDoc = Except.ok
      [mkKeyframeData twoShotsDoc 0 0, mkKeyframeData twoShotsDoc 1 2,
        mkKeyframeData twoShotsDoc 2 5] := by
  constructor
  · norm_num [zeroFpsCap]
  · simp [extract_keyframes, zeroFpsCap, collect_twoShots, List.enum,
      List.enumFrom]

/-- C5 (amended): the builder performs no frame-rate check at all — it
aborts with the fatal source error exactly when the capture fails to open,
regardless of the reported fps. -/
theorem claim_C5 :
    ∀ (cap : VideoCapture) (ins : Insights),
      (∃ e, extract_keyframes cap ins = Except.error e) ↔
        cap.isOpened = false := by
  intro cap ins
  rcases h : cap.isOpened <;> simp [extract_keyframes, h]

/-- C7: on every malformed input (wrong token count, non-numeric part,
empty string, or a missing field) the time-code parser returns `0` and,
being total, never lets an exception propagate; on the well-formed
`"1:02:03.450"` it returns `3723.45`. -/
theorem claim_C7 :
    (∀ s : String, parseFields? s.data = none → parse_time s = 0) ∧
    parse_time_any none = 0 ∧
    parse_time "bad" = 0 ∧ parse_time "" = 0 ∧ parse_time "1:02" = 0 ∧
    parse_time "1:aa:03.450" = 0 ∧ parse_time "1:02:03.450" = 74469 / 20 := by
  refine ⟨fun s h => parse_time_of_none h, rfl, by decide, by decide,
    by decide, by decide, ?_⟩
  rw [parse_time_of_fields (f := (1, 2, 3, 450)) (by decide)]
  norm_num [secondsOfFields]

/-- Witness for C7 at the concrete malformed input `"bad"`. -/
theorem claim_C7_witness : parse_time "bad" = 0 :=
  claim_C7.1 "bad" (by decide)

/-- C9 (counterexample): the parser accepts a signed hours field, so
`parse_time "-1:00:00.000" = -3600 < 0` — refuting that every returned
value is non-negative. -/
theorem claim_C9_counterexample : parse_time "-1:00:00.000" < 0 := by
  rw [parse_time_of_fields (f := (-1, 0, 0, 0)) (by decide)]
  norm_num [secondsOfFields]

/-- C9 (amended): the parser returns a non-negative number of seconds for
every input string whose parsed numeric fields are all non-negative (in
particular for every unsigned time string); a sign in a field can produce
a negative result. -/
theorem claim_C9 :
    ∀ s : String,
      (∀ h m sec ms : ℤ, parseFields? s.data = some (h, m, sec, ms) →
        0 ≤ h ∧ 0 ≤ m ∧ 0 ≤ sec ∧ 0 ≤ ms) →
      0 ≤ parse_time s := by
  intro s hnn
  rcases heq : parseFields? s.data with _ | ⟨⟨h, m, sec, ms⟩⟩
  · simp [parse_time, heq]
  · obtain ⟨h1, h2, h3, h4⟩ := hnn h m sec ms heq
    rw [parse_time_of_fields heq]
    simp only [secondsOfFields]
    have ha : (0 : ℚ) ≤ ((h * 3600 + m * 60 + sec : ℤ) : ℚ) := by
      exact_mod_cast by omega
    have hb : (0 : ℚ) ≤ (ms : ℚ) / 1000 :=
      div_nonneg (by exact_mod_cast h4) (by norm_num)
    exact add_nonneg ha hb

/-- Witness for C9 (amended) at the concrete input `"1:02:03.450"`. -/
theorem claim_C9_witness : 0 ≤ parse_time "1:02:03.450" := by
  apply claim_C9
  intro h m sec ms heq
  rw [show parseFields? "1:02:03.450".data = some (1, 2, 3, 450) from
    by decide] at heq
  simp only [Option.some.injEq, Prod.mk.injEq] at heq
  obtain ⟨e1, e2, e3, e4⟩ := heq
  omega


/-- Every pair of entries of `enumFrom` has strictly increasing indices. -/
theorem pairwise_fst_lt_enumFrom {α : Type} (n : ℕ) (l : List α) :
    List.Pairwise (fun p q : ℕ × α => p.1 < q.1) (List.enumFrom n l) := by
  induction l generalizing n with
  | nil => simp
  | cons a l ih =>
    refine List.Pairwise.cons ?_ (ih (n + 1))
    intro q hq
    have := List.le_fst_of_mem_enumFrom hq
    omega

/-- C8: when the capture opens, the builder never fails: it returns a
(partial) keyframe list containing an entry for position `i` exactly when
the frame at the `i`-th collected timestamp decodes; failed decodes are
skipped without aborting. -/
theorem claim_C8 :
    ∀ (cap : VideoCapture) (ins : Insights), cap.isOpened = true →
      ∃ ks, extract_keyframes cap ins = Except.ok ks ∧
        ∀ i : ℕ, (∃ k ∈ ks, k.frame_index = i) ↔
          ∃ t, (collectTimestamps ins)[i]? = some t ∧
            cap.readOk (truncQ (t * cap.fps)) = true := by
  intro cap ins hopen
  refine ⟨(collectTimestamps ins).enum.filterMap fun p =>
      if cap.readOk (truncQ (p.2 * cap.fps)) then
        some (mkKeyframeData ins p.1 p.2)
      else none,
    by rw [extract_keyframes, if_pos hopen], ?_⟩
  intro i
  constructor
  · rintro ⟨k, hk, rfl⟩
    rw [List.mem_filterMap] at hk
    obtain ⟨⟨j, t⟩, hmem, hf⟩ := hk
    by_cases hr : cap.readOk (truncQ (t * cap.fps)) = true
    · rw [if_pos hr] at hf
      obtain rfl := Option.some.inj hf
      exact ⟨t, List.mk_mem_enum_iff_getElem?.mp hmem, hr⟩
    · rw [if_neg hr] at hf
      cases hf
  · rintro ⟨t, hget, hr⟩
    refine ⟨mkKeyframeData ins i t, ?_, rfl⟩
    rw [List.mem_filterMap]
    exact ⟨(i, t), List.mk_mem_enum_iff_getElem?.mpr hget, by rw [if_pos hr]⟩

/-- Witness for C8: the capture that fails to decode frame number 2 on the
two-shot document still yields a successful (partial) build. -/
theorem claim_C8_witness :
    ∃ ks, extract_keyframes gapCap twoShotsDoc = Except.ok ks ∧
      ∀ i : ℕ, (∃ k ∈ ks, k.frame_index = i) ↔
        ∃ t, (collectTimestamps twoShotsDoc)[i]? = some t ∧
          gapCap.readOk (truncQ (t * gapCap.fps)) = true :=
  claim_C8 gapCap twoShotsDoc rfl

/-- C10: every emitted keyframe's `frame_index` is the position of its
timestamp in the full sorted collected-timestamp list, and the
`frame_index` values of the returned sequence are strictly increasing. -/
theorem claim_C10 :
    ∀ (cap : VideoCapture) (ins : Insights) (ks : List KeyframeData),
      extract_keyframes cap ins = Except.ok ks →
      (∀ k ∈ ks, ∃ t, (collectTimestamps ins)[k.frame_index]? = some t ∧
        k = mkKeyframeData ins k.frame_index t) ∧
      List.Sorted (· < ·) (ks.map KeyframeData.frame_index) := by
  intro cap ins ks hks
  rcases hopen : cap.isOpened with _ | _ <;>
    rw [extract_keyframes] at hks
  · simp [hopen] at hks
  · rw [if_pos hopen] at hks
    obtain rfl := (Except.ok.inj hks).symm
    constructor
    · intro k hk
      rw [List.mem_filterMap] at hk
      obtain ⟨⟨j, t⟩, hmem, hf⟩ := hk
      by_cases hr : cap.readOk (truncQ (t * cap.fps)) = true
      · rw [if_pos hr] at hf
        obtain rfl := Option.some.inj hf
        exact ⟨t, List.mk_mem_enum_iff_getElem?.mp hmem, rfl⟩
      · rw [if_neg hr] at hf
        cases hf
    · rw [List.map_filterMap]
      refine List.Pairwise.filterMap _ ?_ (pairwise_fst_lt_enumFrom 0 _)
      intro p q hpq b hb c hc
      rw [Option.mem_def] at hb hc
      split at hb
      · split at hc
        · simp only [Option.map_some', Option.some.injEq, mkKeyframeData] at hb hc
          omega
        · cases hc
      · cases hb

/-- Witness for C10: on the two-shot document with the capture failing at
frame number 2, the returned `frame_index` values are `[0, 2]` — strictly
increasing with a gap at the skipped timestamp. -/
theorem claim_C10_witness :
    (∀ k ∈ [mkKeyframeData twoShotsDoc 0 0, mkKeyframeData twoShotsDoc 2 5],
      ∃ t, (collectTimestamps twoShotsDoc)[k.frame_index]? = some t ∧
        k = mkKeyframeData twoShotsDoc k.frame_index t) ∧
    List.Sorted (· < ·) (([mkKeyframeData twoShotsDoc 0 0,
      mkKeyframeData twoShotsDoc 2 5]).map KeyframeData.frame_index) :=
  claim_C10 gapCap twoShotsDoc _ (by
    rw [extract_keyframes,
      if_pos (show gapCap.isOpened = true from rfl), collect_twoShots]
    norm_num [gapCap, List.enum, List.enumFrom, truncQ,
      List.filterMap_cons, Int.floor_zero, Int.floor_ofNat])

/-- Unrolling of `sceneLoop` once a previous frame exists: each remaining
frame is paired with its predecessor and an indexed filter decides
emission. -/
theorem sceneLoop_eq (threshold : ℚ) (p : GrayFrame) (i : ℕ)
    (fs : List GrayFrame) :
    sceneLoop threshold (some p) i fs =
      (List.enumFrom i (fs.zip (p :: fs))).filterMap fun q =>
        if diffMean q.2.1 q.2.2 > threshold then
          some (mkCvKeyframe q.1 (diffMean q.2.1 q.2.2))
        else none := by
  induction fs generalizing p i with
  | nil => simp [sceneLoop]
  | cons f rest ih =>
    by_cases h : diffMean f p > threshold <;>
      simp [sceneLoop, List.zip, List.zip_cons_cons, List.enumFrom,
        List.filterMap_cons, h, ih f (i + 1)]

/-- C6: the scene-change detector emits a keyframe at index `i` iff
`i >= 1` and the mean absolute difference of (grayscale) frames `i` and
`i-1` strictly exceeds the threshold; index 0 is never emitted; the
emitted indices are strictly increasing; on three identical frames
followed by one differing by 100, exactly one keyframe is emitted, at the
differing frame's index. -/
theorem claim_C6 :
    (∀ (frames : List GrayFrame) (threshold : ℚ) (k : CvKeyframe),
      k ∈ extract_keyframes_cv frames threshold ↔
        ∃ f p, 1 ≤ k.frame_index ∧ frames[k.frame_index]? = some f ∧
          frames[k.frame_index - 1]? = some p ∧ diffMean f p > threshold ∧
          k = mkCvKeyframe k.frame_index (diffMean f p)) ∧
    (∀ (frames : List GrayFrame) (threshold : ℚ),
      List.Sorted (· < ·)
        ((extract_keyframes_cv frames threshold).map CvKeyframe.frame_index)) ∧
    (∀ (frames : List GrayFrame) (threshold : ℚ),
      ∀ k ∈ extract_keyframes_cv frames threshold, k.frame_index ≠ 0) ∧
    extract_keyframes_cv [[0, 0], [0, 0], [0, 0], [100, 100]] 40 =
      [mkCvKeyframe 3 100] := by
  have hchar : ∀ (frames : List GrayFrame) (threshold : ℚ) (k : CvKeyframe),
      k ∈ extract_keyframes_cv frames threshold ↔
        ∃ f p, 1 ≤ k.frame_index ∧ frames[k.frame_index]? = some f ∧
          frames[k.frame_index - 1]? = some p ∧ diffMean f p > threshold ∧
          k = mkCvKeyframe k.frame_index (diffMean f p) := by
    intro frames threshold k
    cases frames with
    | nil => simp [extract_keyframes_cv, sceneLoop]
    | cons f rest =>
      have hstep : extract_keyframes_cv (f :: rest) threshold =
          sceneLoop threshold (some f) 1 rest := by
        simp [extract_keyframes_cv, sceneLoop]
      rw [hstep, sceneLoop_eq, List.mem_filterMap]
      constructor
      · rintro ⟨⟨j, c, pr⟩, hmem, hf⟩
        rw [List.mk_mem_enumFrom_iff_le_and_getElem?_sub] at hmem
        obtain ⟨hj, hzip⟩ := hmem
        rw [List.getElem?_zip_eq_some] at hzip
        obtain ⟨hc, hpr⟩ := hzip
        by_cases hd : diffMean c pr > threshold
        · rw [if_pos hd] at hf
          obtain rfl := Option.some.inj hf
          refine ⟨c, pr, hj, ?_, hpr, hd, rfl⟩
          have hj1 : j = (j - 1) + 1 := by omega
          rw [show (mkCvKeyframe j (diffMean c pr)).frame_index = j from rfl,
            hj1, List.getElem?_cons_succ]
          exact hc
        · rw [if_neg hd] at hf
          cases hf
      · rintro ⟨c, pr, hge, hc, hpr, hd, hk⟩
        refine ⟨(k.frame_index, c, pr), ?_, ?_⟩
        · rw [List.mk_mem_enumFrom_iff_le_and_getElem?_sub]
          refine ⟨hge, List.getElem?_zip_eq_some.mpr ⟨?_, hpr⟩⟩
          have hj1 : k.frame_index = (k.frame_index - 1) + 1 := by omega
          rw [hj1, List.getElem?_cons_succ] at hc
          exact hc
        · rw [if_pos hd]
          exact congrArg some hk.symm
  have hsorted : ∀ (frames : List GrayFrame) (threshold : ℚ),
      List.Sorted (· < ·)
        ((extract_keyframes_cv frames threshold).map CvKeyframe.frame_index) := by
    intro frames threshold
    cases frames with
    | nil => simp [extract_keyframes_cv, sceneLoop]
    | cons f rest =>
      have hstep : extract_keyframes_cv (f :: rest) threshold =
          sceneLoop threshold (some f) 1 rest := by
        simp [extract_keyframes_cv, sceneLoop]
      rw [hstep, sceneLoop_eq, List.map_filterMap]
      refine List.Pairwise.filterMap _ ?_ (pairwise_fst_lt_enumFrom 1 _)
      intro p q hpq b hb c hc
      rw [Option.mem_def] at hb hc
      split at hb
      · split at hc
        · simp only [Option.map_some', Option.some.injEq, mkCvKeyframe] at hb hc
          omega
        · cases hc
      · cases hb
  refine ⟨hchar, hsorted, ?_, ?_⟩
  · intro frames threshold k hk
    obtain ⟨f, p, h1, -, -, -, -⟩ := (hchar frames threshold k).mp hk
    omega
  · have hd0 : diffMean [0, 0] [0, 0] = 0 := by
      norm_num [diffMean, List.zipWith]
    have hd100 : diffMean [100, 100] [0, 0] = 100 := by
      norm_num [diffMean, List.zipWith]
    simp [extract_keyframes_cv, sceneLoop, hd0, hd100]
    norm_num

/-! ## Digit-string lemmas for the round-trip proof -/

theorem toNat_ofNat_digit {d : ℕ} (hd : d < 10) :
    (Char.ofNat (48 + d)).toNat = 48 + d := by
  interval_cases d <;> decide

theorem isDigit_ofNat_digit {d : ℕ} (hd : d < 10) :
    (Char.ofNat (48 + d)).isDigit = true := by
  interval_cases d <;> decide

theorem natDigits_ne_nil (n : ℕ) : natDigits n ≠ [] := by
  rw [natDigits]
  split
  · simp
  · simp

theorem natDigits_all_digit (n : ℕ) :
    ∀ c ∈ natDigits n, c.isDigit = true := by
  induction n using Nat.strong_induction_on with
  | _ n ih =>
    rw [natDigits]
    split
    · intro c hc
      rw [List.mem_singleton] at hc
      subst hc
      exact isDigit_ofNat_digit (by omega)
    · intro c hc
      rw [List.mem_append] at hc
      rcases hc with hc | hc
      · exact ih (n / 10) (Nat.div_lt_self (by omega) (by omega)) c hc
      · rw [List.mem_singleton] at hc
        subst hc
        exact isDigit_ofNat_digit (Nat.mod_lt n (by omega))

theorem decVal_append_singleton (l : List Char) (c : Char) :
    decVal (l ++ [c]) = 10 * decVal l + (c.toNat - 48) := by
  simp [decVal, List.foldl_append]

theorem decVal_natDigits (n : ℕ) : decVal (natDigits n) = n := by
  induction n using Nat.strong_induction_on with
  | _ n ih =>
    rw [natDigits]
    split
    · next h =>
      simp [decVal, List.foldl, toNat_ofNat_digit h]
    · next h =>
      rw [decVal_append_singleton,
        ih (n / 10) (Nat.div_lt_self (by omega) (by omega)),
        toNat_ofNat_digit (Nat.mod_lt n (by omega))]
      omega

theorem decVal_replicate_zero (l : List Char) (w : ℕ) :
    decVal (List.replicate w '0' ++ l) = decVal l := by
  induction w with
  | zero => simp
  | succ w ih =>
    rw [List.replicate_succ, List.cons_append]
    show decVal (List.replicate w '0' ++ l) = decVal l
    exact ih

theorem not_isWhitespace_of_isDigit {c : Char} (h : c.isDigit = true) :
    c.isWhitespace = false := by
  by_contra hw
  rw [Bool.not_eq_false, Char.isWhitespace] at hw
  simp only [Bool.or_eq_true, decide_eq_true_eq] at hw
  rcases hw with ((rfl | rfl) | rfl) | rfl <;> exact absurd h (by decide)

theorem dropWhile_eq_self_of_all {p : Char → Bool} {l : List Char}
    (h : ∀ c ∈ l, p c = false) : l.dropWhile p = l := by
  cases l with
  | nil => rfl
  | cons c cs =>
    rw [List.dropWhile_cons, h c (List.mem_cons_self _ _)]
    simp

theorem pyStrip_of_all_digit {l : List Char}
    (h : ∀ c ∈ l, c.isDigit = true) : pyStrip l = l := by
  rw [pyStrip, dropWhile_eq_self_of_all
    (fun c hc => not_isWhitespace_of_isDigit (h c hc)),
    dropWhile_eq_self_of_all
      (fun c hc => not_isWhitespace_of_isDigit (h c (List.mem_reverse.mp hc))),
    List.reverse_reverse]

theorem ne_dash_of_isDigit {c : Char} (h : c.isDigit = true) : c ≠ '-' := by
  rintro rfl
  simp at h

theorem ne_plus_of_isDigit {c : Char} (h : c.isDigit = true) : c ≠ '+' := by
  rintro rfl
  simp at h

theorem ne_colon_of_isDigit {c : Char} (h : c.isDigit = true) : c ≠ ':' := by
  rintro rfl
  simp at h

theorem ne_dot_of_isDigit {c : Char} (h : c.isDigit = true) : c ≠ '.' := by
  rintro rfl
  simp at h

theorem pythonInt_of_digits {l : List Char} (h1 : l ≠ [])
    (h2 : ∀ c ∈ l, c.isDigit = true) :
    pythonInt l = some ((decVal l : ℕ) : ℤ) := by
  rw [pythonInt, pyStrip_of_all_digit h2]
  cases l with
  | nil => exact absurd rfl h1
  | cons c cs =>
    have hc : c.isDigit = true := h2 c (List.mem_cons_self _ _)
    simp only
    rw [if_neg (ne_dash_of_isDigit hc), if_neg (ne_plus_of_isDigit hc)]
    rw [show decNat (c :: cs) = some (decVal (c :: cs)) from by
      simp only [decNat]
      rw [if_pos (by simpa [List.all_eq_true] using h2)]
      rfl]
    rfl

theorem splitCh_ne_nil (sep : Char) (l : List Char) : splitCh sep l ≠ [] := by
  cases l with
  | nil => simp [splitCh]
  | cons c cs =>
    rw [splitCh]
    rcases heq : splitCh sep cs with _ | ⟨p, ps⟩
    · show ([[]] : List (List Char)) ≠ []
      simp
    · show (if c = sep then [] :: p :: ps else (c :: p) :: ps) ≠ []
      split <;> simp

theorem splitCh_of_forall_ne {sep : Char} {l : List Char}
    (h : ∀ c ∈ l, c ≠ sep) : splitCh sep l = [l] := by
  induction l with
  | nil => rfl
  | cons c cs ih =>
    rw [splitCh, ih fun x hx => h x (List.mem_cons_of_mem _ hx)]
    show (if c = sep then [] :: cs :: ([] : List (List Char))
      else (c :: cs) :: ([] : List (List Char))) = [c :: cs]
    rw [if_neg (h c (List.mem_cons_self _ _))]

theorem splitCh_append {sep : Char} {l1 l2 : List Char}
    (h : ∀ c ∈ l1, c ≠ sep) :
    splitCh sep (l1 ++ sep :: l2) = l1 :: splitCh sep l2 := by
  induction l1 with
  | nil =>
    rw [List.nil_append, splitCh]
    rcases heq : splitCh sep l2 with _ | ⟨p, ps⟩
    · exact absurd heq (splitCh_ne_nil sep l2)
    · show (if sep = sep then [] :: p :: ps else (sep :: p) :: ps) = [] :: p :: ps
      rw [if_pos rfl]

  | cons c cs ih =>
    rw [List.cons_append, splitCh,
      ih fun x hx => h x (List.mem_cons_of_mem _ hx)]
    show (if c = sep then [] :: cs :: splitCh sep l2
      else (c :: cs) :: splitCh sep l2) = (c :: cs) :: splitCh sep l2
    rw [if_neg (h c (List.mem_cons_self _ _))]

theorem padInt_of_nonneg {n : ℤ} (hn : 0 ≤ n) (w : ℕ) :
    padInt w n = List.replicate (w - (natDigits n.toNat).length) '0'
      ++ natDigits n.toNat := by
  rw [padInt, if_neg (by omega)]

theorem padInt_all_digit {n : ℤ} (hn : 0 ≤ n) (w : ℕ) :
    ∀ c ∈ padInt w n, c.isDigit = true := by
  rw [padInt_of_nonneg hn]
  intro c hc
  rw [List.mem_append] at hc
  rcases hc with hc | hc
  · rw [List.eq_of_mem_replicate hc]
    decide
  · exact natDigits_all_digit _ c hc

theorem padInt_ne_nil {n : ℤ} (hn : 0 ≤ n) (w : ℕ) : padInt w n ≠ [] := by
  rw [padInt_of_nonneg hn]
  intro hcontra
  rcases List.append_eq_nil.mp hcontra with ⟨-, h2⟩
  exact natDigits_ne_nil _ h2

theorem pythonInt_padInt {n : ℤ} (hn : 0 ≤ n) (w : ℕ) :
    pythonInt (padInt w n) = some n := by
  rw [pythonInt_of_digits (padInt_ne_nil hn w) (padInt_all_digit hn w),
    padInt_of_nonneg hn, decVal_replicate_zero, decVal_natDigits,
    Int.toNat_of_nonneg hn]

/-! ## Rational-arithmetic lemmas for the round-trip proof -/

theorem intFloor_natCast_div (a b : ℕ) :
    ⌊(a : ℚ) / (b : ℚ)⌋ = ((a / b : ℕ) : ℤ) := by
  rcases Nat.eq_zero_or_pos b with hb | hb
  · subst hb
    simp
  · have hbq : (0 : ℚ) < (b : ℚ) := by exact_mod_cast hb
    have h2 : a % b < b := Nat.mod_lt a hb
    have ha : (a : ℚ) = (b : ℚ) * ((a / b : ℕ) : ℚ) + ((a % b : ℕ) : ℚ) := by
      exact_mod_cast (Nat.div_add_mod a b).symm
    have h2q : ((a % b : ℕ) : ℚ) < (b : ℚ) := by exact_mod_cast h2
    have h0q : (0 : ℚ) ≤ ((a % b : ℕ) : ℚ) := by positivity
    rw [Int.floor_eq_iff]
    constructor
    · rw [le_div_iff₀ hbq, Int.cast_natCast]
      nlinarith
    · rw [div_lt_iff₀ hbq, Int.cast_natCast]
      nlinarith

theorem truncQ_intCast (m : ℤ) : truncQ ((m : ℚ)) = m := by
  rw [truncQ]
  split
  · exact Int.floor_intCast m
  · rw [show -((m : ℚ)) = ((-m : ℤ) : ℚ) from by push_cast; ring,
      Int.floor_intCast]
    omega

theorem truncQ_natCast (n : ℕ) : truncQ ((n : ℚ)) = (n : ℤ) := by
  rw [show ((n : ℕ) : ℚ) = (((n : ℤ) : ℤ) : ℚ) from by push_cast; ring]
  exact truncQ_intCast n

theorem floor_ms_div (k : ℕ) :
    ⌊(k : ℚ) / 1000⌋ = ((k / 1000 : ℕ) : ℤ) := by
  rw [show (1000 : ℚ) = ((1000 : ℕ) : ℚ) from by norm_num, intFloor_natCast_div]

theorem floor_hours (k : ℕ) :
    ⌊(k : ℚ) / 1000 / 3600⌋ = ((k / 3600000 : ℕ) : ℤ) := by
  rw [div_div, show ((1000 : ℚ) * 3600) = ((3600000 : ℕ) : ℚ) from by norm_num,
    intFloor_natCast_div]

theorem pymod_hours (k : ℕ) :
    pymod ((k : ℚ) / 1000) 3600 = ((k % 3600000 : ℕ) : ℚ) / 1000 := by
  rw [pymod, floor_hours, Int.cast_natCast]
  have h : (k : ℚ) = 3600000 * ((k / 3600000 : ℕ) : ℚ) + ((k % 3600000 : ℕ) : ℚ) := by
    exact_mod_cast (Nat.div_add_mod k 3600000).symm
  rw [h]
  ring

theorem floor_minutes (k : ℕ) :
    ⌊((k % 3600000 : ℕ) : ℚ) / 1000 / 60⌋ =
      ((k % 3600000 / 60000 : ℕ) : ℤ) := by
  rw [div_div, show ((1000 : ℚ) * 60) = ((60000 : ℕ) : ℚ) from by norm_num,
    intFloor_natCast_div]

theorem floor_secs (k : ℕ) :
    ⌊(k : ℚ) / 1000 / 60⌋ = ((k / 60000 : ℕ) : ℤ) := by
  rw [div_div, show ((1000 : ℚ) * 60) = ((60000 : ℕ) : ℚ) from by norm_num,
    intFloor_natCast_div]

theorem pymod_secs (k : ℕ) :
    pymod ((k : ℚ) / 1000) 60 = ((k % 60000 : ℕ) : ℚ) / 1000 := by
  rw [pymod, floor_secs, Int.cast_natCast]
  have h : (k : ℚ) = 60000 * ((k / 60000 : ℕ) : ℚ) + ((k % 60000 : ℕ) : ℚ) := by
    exact_mod_cast (Nat.div_add_mod k 60000).symm
  rw [h]
  ring

theorem pymod_msecs (k : ℕ) :
    pymod ((k : ℚ)) 1000 = ((k % 1000 : ℕ) : ℚ) := by
  rw [pymod, floor_ms_div, Int.cast_natCast]
  have h : (k : ℚ) = 1000 * ((k / 1000 : ℕ) : ℚ) + ((k % 1000 : ℕ) : ℚ) := by
    exact_mod_cast (Nat.div_add_mod k 1000).symm
  rw [h]
  ring

/-- The formatter applied to an exact number of milliseconds produces the
zero-padded decimal fields `k / 3600000`, `k % 3600000 / 60000`,
`k % 60000 / 1000` and `k % 1000`. -/
theorem formatTimestamp_eq (k : ℕ) :
    formatTimestamp ((k : ℚ) / 1000) =
      ⟨padInt 2 ((k / 3600000 : ℕ) : ℤ) ++ ':' ::
        (padInt 2 ((k % 3600000 / 60000 : ℕ) : ℤ) ++ ':' ::
          (padInt 2 ((k % 60000 / 1000 : ℕ) : ℤ) ++ '.' ::
            padInt 3 ((k % 1000 : ℕ) : ℤ)))⟩ := by
  have hH : truncQ (pyFloorDiv ((k : ℚ) / 1000) 3600) =
      ((k / 3600000 : ℕ) : ℤ) := by
    rw [pyFloorDiv, floor_hours, truncQ_intCast]
  have hM : truncQ (pyFloorDiv (pymod ((k : ℚ) / 1000) 3600) 60) =
      ((k % 3600000 / 60000 : ℕ) : ℤ) := by
    rw [pymod_hours, pyFloorDiv, floor_minutes, truncQ_intCast]
  have hS : truncQ (pymod ((k : ℚ) / 1000) 60) =
      ((k % 60000 / 1000 : ℕ) : ℤ) := by
    rw [pymod_secs, show ((k % 60000 : ℕ) : ℚ) / 1000 =
      ((k % 60000 : ℕ) : ℚ) / ((1000 : ℕ) : ℚ) from by norm_num, truncQ,
      if_pos (by positivity), intFloor_natCast_div]
  have hMS : truncQ (pymod ((k : ℚ) / 1000 * 1000) 1000) =
      ((k % 1000 : ℕ) : ℤ) := by
    rw [div_mul_cancel₀ _ (by norm_num : (1000 : ℚ) ≠ 0), pymod_msecs,
      truncQ_natCast]
  simp only [formatTimestamp]
  rw [hH, hM, hS, hMS]
  simp only [List.append_assoc, List.cons_append]

/-- Core round trip: formatting an exact number of milliseconds and
parsing it back is the identity. -/
theorem parse_format (k : ℕ) :
    parse_time (formatTimestamp ((k : ℚ) / 1000)) = (k : ℚ) / 1000 := by
  rw [formatTimestamp_eq]
  have hAd := padInt_all_digit (n := ((k / 3600000 : ℕ) : ℤ)) (by positivity) 2
  have hBd := padInt_all_digit (n := ((k % 3600000 / 60000 : ℕ) : ℤ))
    (by positivity) 2
  have hCd := padInt_all_digit (n := ((k % 60000 / 1000 : ℕ) : ℤ))
    (by positivity) 2
  have hDd := padInt_all_digit (n := ((k % 1000 : ℕ) : ℤ)) (by positivity) 3
  set A := padInt 2 ((k / 3600000 : ℕ) : ℤ) with hA
  set B := padInt 2 ((k % 3600000 / 60000 : ℕ) : ℤ) with hB
  set C := padInt 2 ((k % 60000 / 1000 : ℕ) : ℤ) with hC
  set D := padInt 3 ((k % 1000 : ℕ) : ℤ) with hD
  have hsplit1 : splitCh ':' (A ++ ':' :: (B ++ ':' :: (C ++ '.' :: D))) =
      [A, B, C ++ '.' :: D] := by
    rw [splitCh_append fun c hc => ne_colon_of_isDigit (hAd c hc),
      splitCh_append fun c hc => ne_colon_of_isDigit (hBd c hc),
      splitCh_of_forall_ne ?_]
    intro c hc
    rcases List.mem_append.mp hc with h | h
    · exact ne_colon_of_isDigit (hCd c h)
    · rcases List.mem_cons.mp h with rfl | h
      · decide
      · exact ne_colon_of_isDigit (hDd c h)
  have hsplit2 : splitCh '.' (C ++ '.' :: D) = [C, D] := by
    rw [splitCh_append fun c hc => ne_dot_of_isDigit (hCd c hc),
      splitCh_of_forall_ne fun c hc => ne_dot_of_isDigit (hDd c hc)]
  have pA : pythonInt A = some ((k / 3600000 : ℕ) : ℤ) :=
    pythonInt_padInt (by positivity) 2
  have pB : pythonInt B = some ((k % 3600000 / 60000 : ℕ) : ℤ) :=
    pythonInt_padInt (by positivity) 2
  have pC : pythonInt C = some ((k % 60000 / 1000 : ℕ) : ℤ) :=
    pythonInt_padInt (by positivity) 2
  have pD : pythonInt D = some ((k % 1000 : ℕ) : ℤ) :=
    pythonInt_padInt (by positivity) 3
  have hfields : parseFields? (A ++ ':' :: (B ++ ':' :: (C ++ '.' :: D))) =
      some (((k / 3600000 : ℕ) : ℤ), ((k % 3600000 / 60000 : ℕ) : ℤ),
        ((k % 60000 / 1000 : ℕ) : ℤ), ((k % 1000 : ℕ) : ℤ)) := by
    simp only [parseFields?, hsplit1, hsplit2, pA, pB, pC, pD]
  show ((parseFields? (A ++ ':' :: (B ++ ':' :: (C ++ '.' :: D)))).map
    secondsOfFields).getD 0 = (k : ℚ) / 1000
  rw [hfields]
  simp only [Option.map_some', Option.getD_some, secondsOfFields]
  set a := k / 3600000 with ha
  set b := k % 3600000 / 60000 with hb
  set c := k % 60000 / 1000 with hc
  set d := k % 1000 with hd
  have key : 3600000 * a + 60000 * b + 1000 * c + d = k := by omega
  have keyq : (3600000 : ℚ) * a + 60000 * b + 1000 * c + d = k := by
    exact_mod_cast key
  push_cast
  linarith [keyq]

/-- C2: for every non-negative rational whose value is an exact number of
milliseconds, parsing the canonical `HH:MM:SS.mmm` text produced by the
keyframe timestamp formatter gives the value back:
`parse_time (format x) = x`. -/
theorem claim_C2 :
    ∀ x : ℚ, 0 ≤ x → (x * 1000).den = 1 →
      parse_time (formatTimestamp x) = x := by
  intro x hx hden
  have h1 : (((x * 1000).num : ℤ) : ℚ) = x * 1000 :=
    (Rat.den_eq_one_iff _).mp hden
  have hnum : 0 ≤ (x * 1000).num := Rat.num_nonneg.mpr (by positivity)
  have h2 : (((x * 1000).num.toNat : ℕ) : ℚ) = x * 1000 := by
    rw [← h1]
    exact_mod_cast congrArg (fun z : ℤ => (z : ℚ)) (Int.toNat_of_nonneg hnum)
  have hxk : x = (((x * 1000).num.toNat : ℕ) : ℚ) / 1000 := by
    rw [h2]
    field_simp
  rw [hxk]
  exact parse_format _

/-- Witness for C2 at `x = 3723.45` (`"01:02:03.450"`). -/
theorem claim_C2_witness :
    parse_time (formatTimestamp (74469 / 20)) = 74469 / 20 :=
  claim_C2 (74469 / 20) (by norm_num) (by norm_num)

end OscarReady
